import Mathlib

/-!
Verification of the subtitle-processing scripts: a shallow embedding of
`src/parallel-srt-translator.py` (SRT parsing, per-line translation with
bounded retry, index-ordered reassembly) and `src/SilentGapLocator.py`
(timestamp parsing and silence-gap detection), together with theorems about
the claims of the specification.

Modelling conventions:
* Python strings become Lean `String` (character lists); `str.rstrip` of
  newlines and `str.strip` are re-implemented character-wise on `String.data`
  so that all definitions evaluate by kernel reduction.  Python's `str.strip`
  and the regex class `\d` are modelled for ASCII text (the scripts process
  ASCII SRT structure lines).
* The external `GoogleTranslator.translate` call is an oracle
  `p : String → Nat → Option String` giving, for a text and a 0-based attempt
  number, either a translation (`some`) or a raised provider exception
  (`none`).  `time.sleep(delay)` calls are recorded in a trace of slept
  durations rather than consuming real time.
* `datetime.strptime(s, "%H:%M:%S,%f")` is modelled as a partial parse into
  microseconds of day (`%f` left-aligns 1-6 fraction digits to microseconds);
  `timedelta.total_seconds()` becomes exact division by 1000000 in `ℚ`.
  A raised `ValueError` becomes `none`.
* A raised Python exception propagating out of a function is modelled by the
  function returning `none` (for `calculate_gaps`) or by a `false` completion
  flag (for the output-writing block of `parallel_translate_srt`).
-/

namespace SrtScripts

/-- Characters stripped by Python `str.strip()` (ASCII whitespace). -/
def isPySpace (c : Char) : Bool :=
  c == ' ' || c == '\t' || c == '\n' || c == '\r' || c == '\x0b' || c == '\x0c'

/-- Python `line.strip()`: remove leading and trailing whitespace. -/
def pyStrip (s : String) : String :=
  ⟨((s.data.dropWhile isPySpace).reverse.dropWhile isPySpace).reverse⟩

/-- Python `line.rstrip('\n')`: remove all trailing newline characters. -/
def rstripNl (s : String) : String :=
  ⟨(s.data.reverse.dropWhile (fun c => c == '\n')).reverse⟩

/-- Python `re.match(r'^\d+$', line)` as a Boolean test (ASCII digits). -/
def isDigits (s : String) : Bool :=
  !s.data.isEmpty && s.data.all (fun c => c.isDigit)

/-- Python `int(line)` on a string of decimal digits. -/
def strToNat (s : String) : Nat :=
  s.data.foldl (fun n c => n * 10 + (c.toNat - '0'.toNat)) 0

/-- Containment of a character pattern in a character list (helper for
Python's `pat in line` substring test). -/
def charsContain (needle : List Char) : List Char → Bool
  | [] => needle.isPrefixOf []
  | c :: cs => needle.isPrefixOf (c :: cs) || charsContain needle cs

/-- Python `pat in line` substring containment. -/
def strContains (s pat : String) : Bool :=
  charsContain pat.data s.data

/-- Little-endian decimal digits of `n`, with explicit fuel (`fuel ≥ n`
suffices for the recursion `n ↦ n / 10` to finish). -/
def natDigitsRev (fuel : Nat) (n : Nat) : List Nat :=
  match fuel with
  | 0 => []
  | fuel + 1 => if n = 0 then [] else n % 10 :: natDigitsRev fuel (n / 10)

/-- Python `str(n)` for a natural number: its decimal representation. -/
def natStr (n : Nat) : String :=
  if n = 0 then "0" else ⟨((natDigitsRev n n).reverse.map Nat.digitChar)⟩

/-! ### Data model of `parallel-srt-translator.py` -/

/-- The class `SubtitleBlock` of `parallel-srt-translator.py`: an index, a
time-range line, and the content lines (each stored with its terminator). -/
structure SubtitleBlock where
  index : Nat
  timestamp : String
  content : List String
deriving DecidableEq

/-- `SubtitleBlock.__str__`: the f-string
`f"{self.index}\n{self.timestamp}\n{''.join(self.content)}\n"`. -/
def SubtitleBlock.toStr (b : SubtitleBlock) : String :=
  natStr b.index ++ "\n" ++ b.timestamp ++ "\n" ++ String.join b.content ++ "\n"

/-- The loop state of `parse_srt`: flushed blocks, the currently open block
(if any), and its accumulating content buffer. -/
structure ParseState where
  blocks : List SubtitleBlock
  cur : Option SubtitleBlock
  curContent : List String
deriving DecidableEq

/-- One iteration of the `for line in file_content` loop of `parse_srt`:
an all-digit line opens a new block (flushing the previous one), a line
containing `-->` sets the open block's timestamp, and any other line is
appended (with a restored terminator) to the open block's content buffer. -/
def parseLine (st : ParseState) (rawLine : String) : ParseState :=
  let line := rstripNl rawLine
  if isDigits line then
    match st.cur with
    | some b =>
        ⟨st.blocks ++ [{ b with content := st.curContent }],
         some ⟨strToNat line, "", []⟩, []⟩
    | none => ⟨st.blocks, some ⟨strToNat line, "", []⟩, []⟩
  else if strContains line "-->" then
    match st.cur with
    | some b => ⟨st.blocks, some { b with timestamp := line }, st.curContent⟩
    | none => st
  else
    match st.cur with
    | some _ => ⟨st.blocks, st.cur, st.curContent ++ [line ++ "\n"]⟩
    | none => st

/-- Flushing the last open block at the end of `parse_srt`. -/
def flushFinal (st : ParseState) : List SubtitleBlock :=
  match st.cur with
  | some b => st.blocks ++ [{ b with content := st.curContent }]
  | none => st.blocks

/-- `parse_srt(file_content)`: fold the line handler over the input lines and
flush the final open block. -/
def parse_srt (file_content : List String) : List SubtitleBlock :=
  flushFinal (file_content.foldl parseLine ⟨[], none, []⟩)

/-! ### Translation worker (`translate_block`) -/

/-- The inner `for attempt in range(retries)` loop of `translate_block` for
one non-empty (stripped) line.  `q attempt` is the provider call at that
attempt.  Returns the lines appended to `translated_lines` (empty only when
`remaining = 0`, i.e. `retries = 0`), the number of provider invocations, and
the trace of `time.sleep` durations.  A successful attempt appends the
translation and breaks; a failure on the last attempt appends the untranslated
stripped line; a failure on an earlier attempt sleeps `delay` and retries. -/
def attemptLoop (q : Nat → Option String) (line : String) (delay : Nat) :
    Nat → Nat → List String × Nat × List Nat
  | _, 0 => ([], 0, [])
  | attempt, remaining + 1 =>
    match q attempt with
    | some t => ([t ++ "\n"], 1, [])
    | none =>
      if remaining = 0 then
        ([line ++ "\n"], 1, [])
      else
        let r := attemptLoop q line delay (attempt + 1) remaining
        (r.1, r.2.1 + 1, delay :: r.2.2)

/-- Processing of one raw content line by `translate_block`: strip it; an
empty result appends a bare newline with no provider call, otherwise run the
retry loop on the stripped line. -/
def translateLine (p : String → Nat → Option String) (retries delay : Nat)
    (rawLine : String) : List String × Nat × List Nat :=
  let line := pyStrip rawLine
  if line = "" then (["\n"], 0, [])
  else attemptLoop (p line) line delay 0 retries

/-- `translate_block((block, src, dest, retries, delay))` with provider oracle
`p`: rebuild the content from the per-line results and return
`(block.index, block)` with the content replaced. -/
def translate_block (p : String → Nat → Option String) (retries delay : Nat)
    (b : SubtitleBlock) : Nat × SubtitleBlock :=
  let translated := (b.content.map (fun l => (translateLine p retries delay l).1)).flatten
  (b.index, { b with content := translated })

/-! ### Reassembly (the output-writing block of `parallel_translate_srt`) -/

/-- The blocks written by the loop
`for i in range(min_index, max_index + 1): if i in translated_blocks: ...`,
with the completed-block dictionary given as an association list (keys are
the indices returned by `translate_block`).  Defined as `[]` when the
dictionary is empty (the loop is never reached in that case). -/
def emittedBlocks (m : List SubtitleBlock) : List SubtitleBlock :=
  match (m.map SubtitleBlock.index).min?, (m.map SubtitleBlock.index).max? with
  | some lo, some hi =>
      (List.range' lo (hi + 1 - lo)).filterMap
        (fun i => m.find? (fun b => b.index == i))
  | _, _ => []

/-- The `with open(output_path, 'w') ...` block of `parallel_translate_srt`.
First component: the content of the output file when the block exits (opening
with mode `'w'` truncates the file before anything else happens).  Second
component: whether the block completed normally (`min()` of an empty key set
raises `ValueError`, leaving the already-truncated file empty). -/
def writeOutput (m : List SubtitleBlock) : String × Bool :=
  match (m.map SubtitleBlock.index).min? with
  | none => ("", false)
  | some _ => (String.join ((emittedBlocks m).map SubtitleBlock.toStr), true)

/-! ### `SilentGapLocator.py` -/

/-- Split a character list at every occurrence of `c` (helper for parsing a
timestamp against the fixed format `"%H:%M:%S,%f"`). -/
def splitCharAux (c : Char) : List Char → List Char × List (List Char)
  | [] => ([], [])
  | x :: xs =>
    let r := splitCharAux c xs
    if x == c then ([], r.1 :: r.2) else (x :: r.1, r.2)

/-- All fields of a character list split at `c`. -/
def splitChar (c : Char) (l : List Char) : List (List Char) :=
  (splitCharAux c l).1 :: (splitCharAux c l).2

/-- A run of 1 to `k` ASCII digits, as matched by the `strptime` directives
`%H`/`%M`/`%S` (`k = 2`) and `%f` (`k = 6`). -/
def digitRun (k : Nat) (l : List Char) : Bool :=
  decide (1 ≤ l.length) && decide (l.length ≤ k) && l.all (fun c => c.isDigit)

/-- `datetime.strptime(s, "%H:%M:%S,%f")`, reduced to the microseconds of day
it denotes: the string must be `H:M:S,F` with 1-2 digit hour, minute and
second fields in range and a 1-6 digit fraction field, which `%f` left-aligns
to microseconds.  Any mismatch raises `ValueError`, modelled as `none`. -/
def parseTimeMicros (s : String) : Option Nat :=
  match splitChar ':' s.data with
  | [hs, ms, rest] =>
    match splitChar ',' rest with
    | [ss, fs] =>
      if digitRun 2 hs && digitRun 2 ms && digitRun 2 ss && digitRun 6 fs then
        let h := strToNat ⟨hs⟩
        let m := strToNat ⟨ms⟩
        let sec := strToNat ⟨ss⟩
        if h ≤ 23 && m ≤ 59 && sec ≤ 59 then
          some ((h * 3600 + m * 60 + sec) * 1000000
                + strToNat ⟨fs⟩ * 10 ^ (6 - fs.length))
        else none
      else none
    | _ => none
  | _ => none

/-- The adjacent pairs visited by `for i in range(len(timestamps) - 1)`. -/
def adjPairs {α : Type} : List α → List (α × α)
  | [] => []
  | [_] => []
  | a :: b :: r => (a, b) :: adjPairs (b :: r)

/-- The gap duration in seconds,
`(next_start_time - end_time).total_seconds()`, from microsecond values. -/
def gapSeconds (e ns : Nat) : ℚ :=
  (((ns : Int) - (e : Int) : Int) : ℚ) / 1000000

/-- `calculate_gaps(timestamps, threshold_seconds)`: walk the adjacent pairs
in order; for each, parse the current entry's end and the next entry's start
(an unparseable timestamp raises, aborting the whole call — modelled as
`none`), and record `(end, next_start, gap)` whenever `gap > threshold`. -/
def calculate_gaps (timestamps : List (String × String)) (threshold : ℚ) :
    Option (List (String × String × ℚ)) :=
  match timestamps with
  | [] => some []
  | [_] => some []
  | a :: b :: r =>
    match parseTimeMicros a.2, parseTimeMicros b.1 with
    | some e, some ns =>
      match calculate_gaps (b :: r) threshold with
      | some gs =>
          some (if gapSeconds e ns > threshold
                then (a.2, b.1, gapSeconds e ns) :: gs else gs)
      | none => none
    | _, _ => none

/-- Reference definition for the gap-detector contract, written from the
specification's words rather than the source: "given the ordered sequence of
`(start, end)` timestamp pairs and a threshold, produce the ordered sequence
of `Gap` records where `nextStart - previousEnd > threshold`", with a parse
failure "fatal for that pair" only (the pair is skipped, the scan goes on).
It is compared against the source-derived `calculate_gaps`. -/
def gapsSpec : List (String × String) → ℚ → List (String × String × ℚ)
  | [], _ => []
  | [_], _ => []
  | a :: b :: r, t =>
    match parseTimeMicros a.2, parseTimeMicros b.1 with
    | some e, some ns =>
        if gapSeconds e ns > t then (a.2, b.1, gapSeconds e ns) :: gapsSpec (b :: r) t
        else gapsSpec (b :: r) t
    | _, _ => gapsSpec (b :: r) t

/-! ### Well-formed SRT documents

A well-formed SRT input is described block-wise: an index line, a time-range
line, the content lines, and the standard blank separator line.  `renderDoc`
produces exactly the line sequence `readlines` would hand to `parse_srt` for
such a document. -/

/-- One well-formed source block: index, time-range line (without
terminator), and content lines (each with its terminator). -/
structure RawBlock where
  index : Nat
  ts : String
  body : List String
deriving DecidableEq

/-- The input lines of one well-formed block: index line, time-range line,
content lines, and the blank separator line. -/
def renderBlock (rb : RawBlock) : List String :=
  (natStr rb.index ++ "\n") :: (rb.ts ++ "\n") :: (rb.body ++ ["\n"])

/-- The input lines of a well-formed document. -/
def renderDoc (d : List RawBlock) : List String :=
  (d.map renderBlock).flatten

/-- The `SubtitleBlock` that `parse_srt` builds from one well-formed block:
the blank separator line is absorbed into the block's content. -/
def finalBlock (rb : RawBlock) : SubtitleBlock :=
  ⟨rb.index, rb.ts, rb.body ++ ["\n"]⟩

/-- Well-formedness of a time-range line: it contains the `-->` delimiter and
no newline character. -/
def WFts (ts : String) : Prop :=
  strContains ts "-->" = true ∧ '\n' ∉ ts.data

/-- Well-formedness of a content line: it is its own newline-stripped core
plus one terminator, and its core is neither an index line nor a time-range
line. -/
def WFbody (bl : String) : Prop :=
  rstripNl bl ++ "\n" = bl ∧ isDigits (rstripNl bl) = false ∧
    strContains (rstripNl bl) "-->" = false

/-- Well-formedness of a document. -/
def WF (d : List RawBlock) : Prop :=
  ∀ rb ∈ d, WFts rb.ts ∧ ∀ bl ∈ rb.body, WFbody bl

instance : DecidablePred WFts := fun ts => by unfold WFts; infer_instance

instance : DecidablePred WFbody := fun bl => by unfold WFbody; infer_instance

instance : DecidablePred WF := fun d => by unfold WF; infer_instance

/-! ### Concrete fixtures used by counterexamples and witnesses -/

/-- A provider that fails on every call. -/
def pFail : String → Nat → Option String := fun _ _ => none

/-- The stub translator `T` of the specification: it succeeds immediately,
mapping `text` to `<T:text>`. -/
def pStub : String → Nat → Option String := fun s _ => some ("<T:" ++ s ++ ">")

/-- A minimal well-formed one-block document starting at index 0. -/
def doc1 : List RawBlock :=
  [⟨0, "00:00:00,000 --> 00:00:05,000", ["Hello\n"]⟩]

/-- A well-formed two-block document whose first block has index 0 (the
regression case noted in the source's `test_translation`). -/
def doc9 : List RawBlock :=
  [⟨0, "00:00:00,000 --> 00:00:01,000", ["Hi\n"]⟩,
   ⟨1, "00:00:01,000 --> 00:00:02,000", ["Yo\n"]⟩]

/-- A block whose only content line carries surrounding whitespace. -/
def blockWs : SubtitleBlock :=
  ⟨5, "00:00:01,000 --> 00:00:02,000", ["  Hello  \n"]⟩

/-- The specification's blank-line example block. -/
def blockC5 : SubtitleBlock :=
  ⟨7, "00:00:01,000 --> 00:00:02,000", ["Hello\n", "\n", "World\n"]⟩

/-- Timestamp pairs with a malformed start in the middle entry; the pair
formed by the last two entries is well-formed and 45 seconds apart. -/
def badTs : List (String × String) :=
  [("00:00:00,000", "00:00:05,000"),
   ("banana", "00:00:25,000"),
   ("00:01:10,000", "00:01:20,000")]

/-- A completed block with index 0 (witness fixture). -/
def bA : SubtitleBlock := ⟨0, "t0", ["a\n"]⟩

/-- A completed block with index 2, leaving a hole at index 1 (witness
fixture). -/
def bB : SubtitleBlock := ⟨2, "t2", ["b\n"]⟩

/-- The specification's gap-detector example timestamps. -/
def gapTs : List (String × String) :=
  [("00:00:00,000", "00:00:05,000"),
   ("00:00:20,000", "00:00:25,000")]

/-! ### Helper lemmas: decimal rendering -/

/-- The value denoted by a little-endian digit list. -/
def digitsVal (L : List Nat) : Nat :=
  L.foldr (fun d acc => d + 10 * acc) 0

theorem digitsVal_natDigitsRev :
    ∀ (fuel n : Nat), n ≤ fuel → digitsVal (natDigitsRev fuel n) = n := by
  intro fuel
  induction fuel with
  | zero =>
    intro n hn
    have : n = 0 := Nat.le_zero.mp hn
    subst this
    rfl
  | succ f ih =>
    intro n hn
    by_cases h0 : n = 0
    · subst h0; rfl
    · have hlt : n / 10 < n := Nat.div_lt_self (Nat.pos_of_ne_zero h0) (by omega)
      have hrec := ih (n / 10) (by omega)
      show digitsVal (natDigitsRev (f + 1) n) = n
      unfold natDigitsRev
      rw [if_neg h0]
      show n % 10 + 10 * digitsVal (natDigitsRev f (n / 10)) = n
      rw [hrec]
      omega

theorem natDigitsRev_lt :
    ∀ (fuel n d : Nat), d ∈ natDigitsRev fuel n → d < 10 := by
  intro fuel
  induction fuel with
  | zero => intro n d hd; cases hd
  | succ f ih =>
    intro n d hd
    unfold natDigitsRev at hd
    by_cases h0 : n = 0
    · rw [if_pos h0] at hd; cases hd
    · rw [if_neg h0] at hd
      rcases List.mem_cons.mp hd with h | h
      · subst h; exact Nat.mod_lt _ (by omega)
      · exact ih _ _ h

theorem natDigitsRev_ne_nil (n : Nat) (h : n ≠ 0) : natDigitsRev n n ≠ [] := by
  cases n with
  | zero => exact absurd rfl h
  | succ m =>
    unfold natDigitsRev
    rw [if_neg h]
    exact List.cons_ne_nil _ _

theorem digitChar_isDigit {d : Nat} (h : d < 10) :
    (Nat.digitChar d).isDigit = true := by
  interval_cases d <;> decide

theorem digitChar_toNat {d : Nat} (h : d < 10) :
    (Nat.digitChar d).toNat - '0'.toNat = d := by
  interval_cases d <;> decide

theorem isDigits_natStr (n : Nat) : isDigits (natStr n) = true := by
  unfold natStr
  by_cases h0 : n = 0
  · rw [if_pos h0]; decide
  · rw [if_neg h0]
    have hne := natDigitsRev_ne_nil n h0
    unfold isDigits
    apply Bool.and_eq_true_iff.mpr
    constructor
    · simp [hne]
    · rw [List.all_eq_true]
      intro c hc
      rcases List.mem_map.mp hc with ⟨d, hd, rfl⟩
      exact digitChar_isDigit (natDigitsRev_lt _ _ _ (List.mem_reverse.mp hd))

theorem foldl_rev_digitsVal :
    ∀ (L : List Nat), (∀ d ∈ L, d < 10) →
      List.foldl (fun a c => a * 10 + (c.toNat - '0'.toNat)) 0
        (L.reverse.map Nat.digitChar) = digitsVal L := by
  intro L
  induction L with
  | nil => intro _; rfl
  | cons d ds ih =>
    intro h
    rw [List.reverse_cons, List.map_append, List.foldl_append,
      ih (fun x hx => h x (List.mem_cons_of_mem _ hx))]
    show digitsVal ds * 10 + ((Nat.digitChar d).toNat - '0'.toNat) = digitsVal (d :: ds)
    rw [digitChar_toNat (h d (List.mem_cons_self _ _))]
    show digitsVal ds * 10 + d = d + 10 * digitsVal ds
    omega

theorem strToNat_natStr (n : Nat) : strToNat (natStr n) = n := by
  unfold natStr
  by_cases h0 : n = 0
  · rw [if_pos h0, h0]; rfl
  · rw [if_neg h0]
    show List.foldl (fun a c => a * 10 + (c.toNat - '0'.toNat)) 0
      ((natDigitsRev n n).reverse.map Nat.digitChar) = n
    rw [foldl_rev_digitsVal _ (fun d hd => natDigitsRev_lt _ _ _ hd)]
    exact digitsVal_natDigitsRev n n (Nat.le_refl n)

theorem isDigits_no_nl {s : String} (h : isDigits s = true) : '\n' ∉ s.data := by
  intro hmem
  have hall := (Bool.and_eq_true_iff.mp h).2
  rw [List.all_eq_true] at hall
  have := hall '\n' hmem
  simp at this

/-! ### Helper lemmas: stripping and substring containment -/

theorem dropWhile_nl_of_not_mem {l : List Char} (h : '\n' ∉ l) :
    l.dropWhile (fun c => c == '\n') = l := by
  cases l with
  | nil => rfl
  | cons c cs =>
    have hc : c ≠ '\n' := fun e => h (e ▸ List.mem_cons_self _ _)
    rw [List.dropWhile_cons]
    simp [hc]

theorem rstripNl_append_nl {s : String} (h : '\n' ∉ s.data) :
    rstripNl (s ++ "\n") = s := by
  unfold rstripNl
  have hdata : (s ++ "\n").data = s.data ++ ['\n'] := rfl
  rw [hdata, List.reverse_append]
  show String.mk ((('\n' :: s.data.reverse).dropWhile (fun c => c == '\n')).reverse) = s
  rw [List.dropWhile_cons]
  simp only [beq_self_eq_true, if_true]
  rw [dropWhile_nl_of_not_mem (fun hm => h (List.mem_reverse.mp hm)),
    List.reverse_reverse]

theorem mem_of_isPrefixOf {l₁ l₂ : List Char} (h : l₁.isPrefixOf l₂ = true) :
    ∀ c ∈ l₁, c ∈ l₂ := by
  induction l₁ generalizing l₂ with
  | nil => intro c hc; cases hc
  | cons a as ih =>
    cases l₂ with
    | nil => cases h
    | cons b bs =>
      have h2 := Bool.and_eq_true_iff.mp h
      have hab : a = b := by
        have := h2.1; simpa using this
      intro c hc
      rcases List.mem_cons.mp hc with rfl | hc2
      · exact hab ▸ List.mem_cons_self _ _
      · exact List.mem_cons_of_mem _ (ih h2.2 c hc2)

theorem mem_of_charsContain {n l : List Char} (h : charsContain n l = true) :
    ∀ c ∈ n, c ∈ l := by
  induction l with
  | nil =>
    intro c hc
    exfalso
    cases n with
    | nil => cases hc
    | cons x xs =>
      unfold charsContain at h
      simp [List.isPrefixOf] at h
  | cons x xs ih =>
    intro c hc
    unfold charsContain at h
    rcases Bool.or_eq_true_iff.mp h with h1 | h2
    · exact mem_of_isPrefixOf h1 c hc
    · exact List.mem_cons_of_mem _ (ih h2 c hc)

theorem isDigits_of_contains_arrow {s : String}
    (h : strContains s "-->" = true) : isDigits s = false := by
  cases hd : isDigits s
  · rfl
  · exfalso
    have hmem : '-' ∈ s.data := mem_of_charsContain h '-' (by decide)
    have hall := (Bool.and_eq_true_iff.mp hd).2
    rw [List.all_eq_true] at hall
    have := hall '-' hmem
    simp at this

/-! ### Helper lemmas: the parser on well-formed documents -/

theorem parseLine_digit (blocks : List SubtitleBlock) (cur : Option SubtitleBlock)
    (acc : List String) (rawLine : String)
    (h1 : isDigits (rstripNl rawLine) = true) :
    parseLine ⟨blocks, cur, acc⟩ rawLine
      = ⟨flushFinal ⟨blocks, cur, acc⟩, some ⟨strToNat (rstripNl rawLine), "", []⟩, []⟩ := by
  cases cur <;> simp [parseLine, flushFinal, h1]

theorem parseLine_ts (blocks : List SubtitleBlock) (b : SubtitleBlock)
    (acc : List String) (rawLine : String)
    (h1 : isDigits (rstripNl rawLine) = false)
    (h2 : strContains (rstripNl rawLine) "-->" = true) :
    parseLine ⟨blocks, some b, acc⟩ rawLine
      = ⟨blocks, some { b with timestamp := rstripNl rawLine }, acc⟩ := by
  simp [parseLine, h1, h2]

theorem parseLine_content (blocks : List SubtitleBlock) (b : SubtitleBlock)
    (acc : List String) (rawLine : String)
    (h1 : isDigits (rstripNl rawLine) = false)
    (h2 : strContains (rstripNl rawLine) "-->" = false) :
    parseLine ⟨blocks, some b, acc⟩ rawLine
      = ⟨blocks, some b, acc ++ [rstripNl rawLine ++ "\n"]⟩ := by
  simp [parseLine, h1, h2]

theorem foldl_content (body : List String) :
    (∀ bl ∈ body, WFbody bl) →
    ∀ (blocks : List SubtitleBlock) (b : SubtitleBlock) (acc : List String),
      List.foldl parseLine ⟨blocks, some b, acc⟩ body = ⟨blocks, some b, acc ++ body⟩ := by
  induction body with
  | nil => intro _ blocks b acc; simp
  | cons bl rest ih =>
    intro hb blocks b acc
    have hwf := hb bl (List.mem_cons_self _ _)
    rw [List.foldl_cons,
      parseLine_content blocks b acc bl hwf.2.1 hwf.2.2,
      ih (fun x hx => hb x (List.mem_cons_of_mem _ hx)) blocks b (acc ++ [rstripNl bl ++ "\n"])]
    rw [hwf.1]
    simp

theorem rstripNl_nl : rstripNl "\n" = "" := rfl

theorem foldl_renderBlock (rb : RawBlock) (hts : WFts rb.ts)
    (hbody : ∀ bl ∈ rb.body, WFbody bl) (rest : List String)
    (blocks : List SubtitleBlock) (cur : Option SubtitleBlock) (acc : List String) :
    List.foldl parseLine ⟨blocks, cur, acc⟩ (renderBlock rb ++ rest)
      = List.foldl parseLine
          ⟨flushFinal ⟨blocks, cur, acc⟩, some ⟨rb.index, rb.ts, []⟩, rb.body ++ ["\n"]⟩ rest := by
  have hidx : rstripNl (natStr rb.index ++ "\n") = natStr rb.index :=
    rstripNl_append_nl (isDigits_no_nl (isDigits_natStr rb.index))
  have hts2 : rstripNl (rb.ts ++ "\n") = rb.ts := rstripNl_append_nl hts.2
  show List.foldl parseLine ⟨blocks, cur, acc⟩
      ((natStr rb.index ++ "\n") :: (rb.ts ++ "\n") :: (rb.body ++ ["\n"]) ++ rest) = _
  rw [List.cons_append, List.cons_append, List.foldl_cons, List.foldl_cons,
    parseLine_digit blocks cur acc _ (by rw [hidx]; exact isDigits_natStr rb.index)]
  rw [hidx, strToNat_natStr]
  rw [parseLine_ts _ _ _ _ (by rw [hts2]; exact isDigits_of_contains_arrow hts.1)
      (by rw [hts2]; exact hts.1)]
  rw [hts2]
  rw [List.append_assoc, List.foldl_append, foldl_content rb.body hbody]
  rw [List.singleton_append, List.foldl_cons,
    parseLine_content _ _ _ _ (by rw [rstripNl_nl]; rfl) (by rw [rstripNl_nl]; rfl)]
  rw [rstripNl_nl]
  rfl

theorem parse_renderDoc_aux (d : List RawBlock) :
    WF d →
    ∀ (blocks : List SubtitleBlock) (cur : Option SubtitleBlock) (acc : List String),
      flushFinal (List.foldl parseLine ⟨blocks, cur, acc⟩ (renderDoc d))
        = flushFinal ⟨blocks, cur, acc⟩ ++ d.map finalBlock := by
  induction d with
  | nil => intro _ blocks cur acc; simp [renderDoc]
  | cons rb rest ih =>
    intro hwf blocks cur acc
    have hrb := hwf rb (List.mem_cons_self _ _)
    have hdoc : renderDoc (rb :: rest) = renderBlock rb ++ renderDoc rest := by
      simp [renderDoc]
    rw [hdoc, foldl_renderBlock rb hrb.1 hrb.2 (renderDoc rest) blocks cur acc,
      ih (fun x hx => hwf x (List.mem_cons_of_mem _ hx))]
    show flushFinal ⟨blocks, cur, acc⟩ ++ [⟨rb.index, rb.ts, rb.body ++ ["\n"]⟩]
        ++ rest.map finalBlock = _
    simp [finalBlock]

/-! ### Claim C1 -/

/-- C1, counterexample.  For the well-formed one-block document `doc1` (index
line `0`, a time-range line, content `Hello`, blank separator), parsing and
re-serializing with identity translation does not reproduce the original
text: the parser absorbs the blank separator line into the block's content
(second conjunct), and `__str__` appends a further newline, so the output
gains one blank line.  Hence the round trip does not reproduce the content
lines exactly. -/
theorem C1_counterexample :
    String.join ((parse_srt (renderDoc doc1)).map SubtitleBlock.toStr)
        ≠ String.join (renderDoc doc1) ∧
    (parse_srt (renderDoc doc1)).map SubtitleBlock.content = [["Hello\n", "\n"]] ∧
    (doc1.map RawBlock.body) = [["Hello\n"]] := by
  refine ⟨?_, by decide, by decide⟩
  decide

/-- C1, amended.  Parsing a well-formed SRT input reproduces the index
sequence and the time ranges exactly; each block's parsed content is its
original content lines plus one trailing blank line (the block separator,
which the parser absorbs into content), so re-serialization reproduces the
original document with one extra blank line appended to every block rather
than exactly. -/
theorem C1_parse_roundtrip_amended (d : List RawBlock) (hwf : WF d) :
    parse_srt (renderDoc d) = d.map finalBlock ∧
    (parse_srt (renderDoc d)).map SubtitleBlock.index = d.map RawBlock.index ∧
    (parse_srt (renderDoc d)).map SubtitleBlock.timestamp = d.map RawBlock.ts ∧
    (parse_srt (renderDoc d)).map SubtitleBlock.content
      = d.map (fun rb => rb.body ++ ["\n"]) := by
  have hmain : parse_srt (renderDoc d) = d.map finalBlock := by
    unfold parse_srt
    rw [parse_renderDoc_aux d hwf [] none []]
    rfl
  refine ⟨hmain, ?_, ?_, ?_⟩ <;> rw [hmain, List.map_map] <;> rfl

/-- C1, witness for the amended theorem: the hypotheses are satisfied by the
concrete well-formed document `doc1`, and the conclusion evaluates there. -/
theorem C1_witness :
    WF doc1 ∧ parse_srt (renderDoc doc1) = doc1.map finalBlock :=
  ⟨by decide, (C1_parse_roundtrip_amended doc1 (by decide)).1⟩

/-! ### Helper lemmas: the retry loop -/

theorem attemptLoop_always_fail (q : Nat → Option String) (line : String)
    (delay : Nat) (hq : ∀ a, q a = none) :
    ∀ (remaining attempt : Nat), 1 ≤ remaining →
      attemptLoop q line delay attempt remaining
        = ([line ++ "\n"], remaining, List.replicate (remaining - 1) delay) := by
  intro remaining
  induction remaining with
  | zero => intro _ h; omega
  | succ r ih =>
    intro attempt _
    show (match q attempt with
          | some t => ([t ++ "\n"], 1, [])
          | none =>
            if r = 0 then ([line ++ "\n"], 1, [])
            else
              let w := attemptLoop q line delay (attempt + 1) r
              (w.1, w.2.1 + 1, delay :: w.2.2)) = _
    rw [hq attempt]
    cases r with
    | zero => simp
    | succ r2 =>
      show (let w := attemptLoop q line delay (attempt + 1) (r2 + 1)
            (w.1, w.2.1 + 1, delay :: w.2.2)) = _
      rw [ih (attempt + 1) (by omega)]
      simp [List.replicate_succ]

theorem attemptLoop_calls_le (q : Nat → Option String) (line : String)
    (delay : Nat) :
    ∀ (remaining attempt : Nat),
      (attemptLoop q line delay attempt remaining).2.1 ≤ remaining := by
  intro remaining
  induction remaining with
  | zero => intro _; exact Nat.le_refl 0
  | succ r ih =>
    intro attempt
    show (match q attempt with
          | some t => ([t ++ "\n"], 1, [])
          | none =>
            if r = 0 then ([line ++ "\n"], 1, [])
            else
              let w := attemptLoop q line delay (attempt + 1) r
              (w.1, w.2.1 + 1, delay :: w.2.2)).2.1 ≤ r + 1
    cases q attempt with
    | some t => simp
    | none =>
      cases r with
      | zero => simp
      | succ r2 =>
        have := ih (attempt + 1)
        simp only [if_neg (Nat.succ_ne_zero r2)]
        omega

theorem attemptLoop_single (q : Nat → Option String) (line : String)
    (delay : Nat) :
    ∀ (remaining attempt : Nat), 1 ≤ remaining →
      ∃ y, (attemptLoop q line delay attempt remaining).1 = [y] := by
  intro remaining
  induction remaining with
  | zero => intro _ h; omega
  | succ r ih =>
    intro attempt _
    show ∃ y, (match q attempt with
          | some t => ([t ++ "\n"], 1, [])
          | none =>
            if r = 0 then ([line ++ "\n"], 1, [])
            else
              let w := attemptLoop q line delay (attempt + 1) r
              (w.1, w.2.1 + 1, delay :: w.2.2)).1 = [y]
    cases q attempt with
    | some t => exact ⟨t ++ "\n", rfl⟩
    | none =>
      cases r with
      | zero => exact ⟨line ++ "\n", rfl⟩
      | succ r2 =>
        rcases ih (attempt + 1) (by omega) with ⟨y, hy⟩
        exact ⟨y, by simp only [if_neg (Nat.succ_ne_zero r2)]; exact hy⟩

theorem attemptLoop_succ (q : Nat → Option String) (line : String)
    (delay attempt r : Nat) :
    attemptLoop q line delay attempt (r + 1)
      = match q attempt with
        | some t => ([t ++ "\n"], 1, [])
        | none =>
          if r = 0 then ([line ++ "\n"], 1, [])
          else
            let w := attemptLoop q line delay (attempt + 1) r
            (w.1, w.2.1 + 1, delay :: w.2.2) := rfl

theorem attemptLoop_trace_mem (q : Nat → Option String) (line : String)
    (delay : Nat) :
    ∀ (remaining attempt : Nat),
      ∀ x ∈ (attemptLoop q line delay attempt remaining).2.2, x = delay := by
  intro remaining
  induction remaining with
  | zero => intro attempt x hx; cases hx
  | succ r ih =>
    intro attempt x hx
    rw [attemptLoop_succ] at hx
    cases hqa : q attempt with
    | some t => rw [hqa] at hx; simp at hx
    | none =>
      rw [hqa] at hx
      cases r with
      | zero => simp at hx
      | succ r2 =>
        simp only [if_neg (Nat.succ_ne_zero r2)] at hx
        rcases List.mem_cons.mp hx with rfl | hx2
        · rfl
        · exact ih (attempt + 1) x hx2

theorem attemptLoop_trace_fixed (q : Nat → Option String) (line : String)
    (delay remaining attempt : Nat) :
    (attemptLoop q line delay attempt remaining).2.2
      = List.replicate (attemptLoop q line delay attempt remaining).2.2.length delay :=
  List.eq_replicate_of_mem (attemptLoop_trace_mem q line delay remaining attempt)

theorem translateLine_single (p : String → Nat → Option String)
    (retries delay : Nat) (rawLine : String) (hr : 1 ≤ retries) :
    ∃ y, (translateLine p retries delay rawLine).1 = [y] := by
  unfold translateLine
  by_cases h : pyStrip rawLine = ""
  · rw [if_pos h]; exact ⟨"\n", rfl⟩
  · rw [if_neg h]; exact attemptLoop_single _ _ _ retries 0 hr

theorem flatten_of_singletons (f : String → List String) (L : List String)
    (h : ∀ x ∈ L, ∃ y, f x = [y]) :
    (L.map f).flatten = L.map (fun x => (f x).headD "") := by
  induction L with
  | nil => rfl
  | cons x xs ih =>
    rcases h x (List.mem_cons_self _ _) with ⟨y, hy⟩
    rw [List.map_cons, List.flatten_cons, hy,
      ih (fun z hz => h z (List.mem_cons_of_mem _ hz)), List.map_cons, hy]
    rfl

theorem translate_block_content_map (p : String → Nat → Option String)
    (retries delay : Nat) (b : SubtitleBlock) (hr : 1 ≤ retries) :
    (translate_block p retries delay b).2.content
      = b.content.map (fun l => (translateLine p retries delay l).1.headD "") := by
  show ((b.content.map (fun l => (translateLine p retries delay l).1)).flatten) = _
  exact flatten_of_singletons _ _
    (fun x _ => translateLine_single p retries delay x hr)

/-! ### Claims C3, C4, C5, C6 -/

/-- C3.  For a non-empty (stripped) line and any configured `retries ≥ 1`:
an always-failing provider is invoked exactly `retries` times, with a sleep
of the fixed `delay` between each pair of consecutive failed attempts
(`retries - 1` sleeps); for an arbitrary provider the number of invocations
is at most `retries`, and every recorded sleep is the fixed `delay`. -/
theorem C3_retry_exhaustion (p : String → Nat → Option String) (rawLine : String)
    (retries delay : Nat) (hr : 1 ≤ retries) (hne : pyStrip rawLine ≠ "") :
    ((∀ a, p (pyStrip rawLine) a = none) →
        (translateLine p retries delay rawLine).2.1 = retries ∧
        (translateLine p retries delay rawLine).2.2
          = List.replicate (retries - 1) delay) ∧
    (translateLine p retries delay rawLine).2.1 ≤ retries ∧
    (translateLine p retries delay rawLine).2.2
      = List.replicate (translateLine p retries delay rawLine).2.2.length delay := by
  simp only [translateLine]
  rw [if_neg hne]
  refine ⟨fun hfail => ?_, attemptLoop_calls_le _ _ _ retries 0,
    attemptLoop_trace_fixed _ _ _ retries 0⟩
  rw [attemptLoop_always_fail _ _ delay hfail retries 0 hr]
  exact ⟨rfl, rfl⟩

/-- C3, witness: with `maxRetries = 3`, `delay = 5` and the always-failing
provider, the line `Hello` costs exactly 3 provider calls and two sleeps of
5 seconds. -/
theorem C3_witness :
    (1 ≤ 3 ∧ pyStrip "Hello\n" ≠ "") ∧
    (translateLine pFail 3 5 "Hello\n").2.1 = 3 ∧
    (translateLine pFail 3 5 "Hello\n").2.2 = [5, 5] := by
  have h := C3_retry_exhaustion pFail "Hello\n" 3 5 (by omega) (by decide)
  have h2 := h.1 (fun a => rfl)
  exact ⟨⟨by omega, by decide⟩, h2.1, by rw [h2.2]; rfl⟩

/-- C4, counterexample.  The claim says the worker falls back to "the
original untranslated line".  On the block whose only content line is
`"  Hello  \n"`, exhausting all retries emits `"Hello\n"`: the fallback is
the whitespace-stripped line, not the original line. -/
theorem C4_counterexample :
    blockWs.content = ["  Hello  \n"] ∧
    (translate_block pFail 3 5 blockWs).2.content = ["Hello\n"] ∧
    (["Hello\n"] : List String) ≠ ["  Hello  \n"] :=
  ⟨rfl, by decide, by decide⟩

/-- C4, amended.  For every non-empty line whose translation fails on all
retry attempts, the worker falls back to emitting the whitespace-stripped
original line with a newline appended, in that line's position (for lines
with no surrounding whitespace this is the original line); the block is
still returned with its index and a full set of lines — one output line per
content line — so it is never dropped and the block is never aborted. -/
theorem C4_fallback_amended (p : String → Nat → Option String)
    (retries delay : Nat) (b : SubtitleBlock) (hr : 1 ≤ retries) :
    (translate_block p retries delay b).1 = b.index ∧
    (translate_block p retries delay b).2.content.length = b.content.length ∧
    ∀ (i : Nat) (l : String), b.content[i]? = some l → pyStrip l ≠ "" →
      (∀ a, p (pyStrip l) a = none) →
      (translate_block p retries delay b).2.content[i]? = some (pyStrip l ++ "\n") := by
  have hmap := translate_block_content_map p retries delay b hr
  refine ⟨rfl, ?_, ?_⟩
  · rw [hmap, List.length_map]
  · intro i l hil hne hfail
    rw [hmap, List.getElem?_map, hil]
    show some ((translateLine p retries delay l).1.headD "") = _
    have hline : (translateLine p retries delay l).1 = [pyStrip l ++ "\n"] := by
      simp only [translateLine]
      rw [if_neg hne, attemptLoop_always_fail _ _ delay hfail retries 0 hr]
    rw [hline]
    rfl

/-- C4, witness for the amended theorem at the whitespace block. -/
theorem C4_witness :
    (1 ≤ 3 ∧ blockWs.content[0]? = some "  Hello  \n" ∧
      pyStrip "  Hello  \n" ≠ "") ∧
    (translate_block pFail 3 5 blockWs).2.content[0]?
      = some (pyStrip "  Hello  \n" ++ "\n") := by
  have h := (C4_fallback_amended pFail 3 5 blockWs (by omega)).2.2 0
    "  Hello  \n" (by decide) (by decide) (fun a => rfl)
  exact ⟨⟨by omega, by decide, by decide⟩, h⟩

/-- C5.  For every block and provider behaviour (with `retries ≥ 1`): the
translated content has exactly one line per original content line, every
content line that strips to empty is reproduced as a bare `"\n"` at the same
position, and such a line costs zero provider invocations.  Moreover the
specification's concrete example holds: `["Hello\n", "\n", "World\n"]` under
the stub translator becomes `["<T:Hello>\n", "\n", "<T:World>\n"]`. -/
theorem C5_blank_preservation :
    (∀ (p : String → Nat → Option String) (retries delay : Nat)
        (b : SubtitleBlock), 1 ≤ retries →
        (translate_block p retries delay b).2.content.length = b.content.length ∧
        ∀ (i : Nat) (l : String), b.content[i]? = some l → pyStrip l = "" →
          (translate_block p retries delay b).2.content[i]? = some "\n" ∧
          (translateLine p retries delay l).2.1 = 0) ∧
    (translate_block pStub 3 5 blockC5).2.content
      = ["<T:Hello>\n", "\n", "<T:World>\n"] := by
  constructor
  · intro p retries delay b hr
    have hmap := translate_block_content_map p retries delay b hr
    constructor
    · rw [hmap, List.length_map]
    · intro i l hil hblank
      have hline : translateLine p retries delay l = (["\n"], 0, []) := by
        simp only [translateLine]
        rw [if_pos hblank]
      constructor
      · rw [hmap, List.getElem?_map, hil]
        show some ((translateLine p retries delay l).1.headD "") = _
        rw [hline]
        rfl
      · rw [hline]
  · decide

/-- C5, witness: the blank line of the example block sits at position 1,
is reproduced there, and costs no provider call. -/
theorem C5_witness :
    (1 ≤ 3 ∧ blockC5.content[1]? = some "\n" ∧ pyStrip "\n" = "") ∧
    (translate_block pStub 3 5 blockC5).2.content.length = 3 ∧
    (translate_block pStub 3 5 blockC5).2.content[1]? = some "\n" ∧
    (translateLine pStub 3 5 "\n").2.1 = 0 := by
  have h := C5_blank_preservation.1 pStub 3 5 blockC5 (by omega)
  have h2 := h.2 1 "\n" (by decide) (by decide)
  exact ⟨⟨by omega, by decide, by decide⟩, h.1.trans (by decide), h2.1, h2.2⟩

/-- C6.  Frame condition: whatever the provider does and however retries are
configured, `translate_block` returns the input block's index (both as the
dictionary key and in the block) and leaves the timestamp string unchanged;
only the content is replaced. -/
theorem C6_frame_condition (p : String → Nat → Option String)
    (retries delay : Nat) (b : SubtitleBlock) :
    (translate_block p retries delay b).1 = b.index ∧
    (translate_block p retries delay b).2.index = b.index ∧
    (translate_block p retries delay b).2.timestamp = b.timestamp :=
  ⟨rfl, rfl, rfl⟩

/-! ### Helper lemmas: reassembly -/

theorem natMin?_some {xs : List Nat} {a : Nat} :
    xs.min? = some a ↔ a ∈ xs ∧ ∀ b ∈ xs, a ≤ b :=
  List.min?_eq_some_iff (fun _ => le_refl _) (fun a b => min_choice a b)
    (fun _ _ _ => le_min_iff)

theorem natMax?_some {xs : List Nat} {a : Nat} :
    xs.max? = some a ↔ a ∈ xs ∧ ∀ b ∈ xs, b ≤ a :=
  List.max?_eq_some_iff (fun _ => le_refl _) (fun a b => max_choice a b)
    (fun _ _ _ => max_le_iff)

theorem min?_perm {l₁ l₂ : List Nat} (hp : l₁.Perm l₂) : l₁.min? = l₂.min? := by
  cases h : l₁.min? with
  | none =>
    have h1 : l₁ = [] := List.min?_eq_none_iff.mp h
    have h2 : l₂ = [] := List.Perm.eq_nil (h1 ▸ hp).symm
    rw [h2, List.min?_eq_none_iff.mpr rfl]
  | some a =>
    have h1 := natMin?_some.mp h
    exact (natMin?_some.mpr ⟨hp.mem_iff.mp h1.1,
      fun b hb => h1.2 b (hp.mem_iff.mpr hb)⟩).symm

theorem max?_perm {l₁ l₂ : List Nat} (hp : l₁.Perm l₂) : l₁.max? = l₂.max? := by
  cases h : l₁.max? with
  | none =>
    have h1 : l₁ = [] := List.max?_eq_none_iff.mp h
    have h2 : l₂ = [] := List.Perm.eq_nil (h1 ▸ hp).symm
    rw [h2, List.max?_eq_none_iff.mpr rfl]
  | some a =>
    have h1 := natMax?_some.mp h
    exact (natMax?_some.mpr ⟨hp.mem_iff.mp h1.1,
      fun b hb => h1.2 b (hp.mem_iff.mpr hb)⟩).symm

theorem find?_idx_eq_some {m : List SubtitleBlock} {b : SubtitleBlock}
    (hnd : (m.map SubtitleBlock.index).Nodup) (hb : b ∈ m) :
    m.find? (fun x => x.index == b.index) = some b := by
  induction m with
  | nil => cases hb
  | cons a rest ih =>
    rw [List.map_cons, List.nodup_cons] at hnd
    rcases List.mem_cons.mp hb with rfl | hb2
    · exact List.find?_cons_of_pos _ (beq_self_eq_true _)
    · have hne : ¬(a.index == b.index) = true := by
        intro he
        exact hnd.1 (beq_iff_eq.mp he ▸
          List.mem_map.mpr ⟨b, hb2, rfl⟩)
      rw [@List.find?_cons_of_neg _ (fun x => x.index == b.index) a rest hne]
      exact ih hnd.2 hb2

theorem find?_idx_perm {m₁ m₂ : List SubtitleBlock}
    (hnd : (m₁.map SubtitleBlock.index).Nodup) (hp : m₁.Perm m₂) (i : Nat) :
    m₁.find? (fun b => b.index == i) = m₂.find? (fun b => b.index == i) := by
  have hnd2 : (m₂.map SubtitleBlock.index).Nodup :=
    (hp.map SubtitleBlock.index).nodup_iff.mp hnd
  cases h : m₁.find? (fun b => b.index == i) with
  | none =>
    have hall := List.find?_eq_none.mp h
    exact (List.find?_eq_none.mpr (fun x hx => hall x (hp.mem_iff.mpr hx))).symm
  | some b =>
    have hbi : b.index = i :=
      beq_iff_eq.mp (@List.find?_some _ (fun b => b.index == i) b m₁ h)
    have hb2 : b ∈ m₂ := hp.mem_iff.mp (List.mem_of_find?_eq_some h)
    rw [← hbi]
    exact (find?_idx_eq_some hnd2 hb2).symm

theorem mem_emittedBlocks {m : List SubtitleBlock}
    (hnd : (m.map SubtitleBlock.index).Nodup) (b : SubtitleBlock) :
    b ∈ emittedBlocks m ↔ b ∈ m := by
  unfold emittedBlocks
  cases hmin : (m.map SubtitleBlock.index).min? with
  | none =>
    have : m = [] := List.map_eq_nil_iff.mp (List.min?_eq_none_iff.mp hmin)
    subst this
    simp
  | some lo =>
    cases hmax : (m.map SubtitleBlock.index).max? with
    | none =>
      have : m = [] := List.map_eq_nil_iff.mp (List.max?_eq_none_iff.mp hmax)
      subst this
      simp at hmin
    | some hi =>
      constructor
      · intro hmem
        rcases List.mem_filterMap.mp hmem with ⟨i, _, hfind⟩
        exact List.mem_of_find?_eq_some hfind
      · intro hmem
        have hlo := natMin?_some.mp hmin
        have hhi := natMax?_some.mp hmax
        have h1 : lo ≤ b.index := hlo.2 _ (List.mem_map.mpr ⟨b, hmem, rfl⟩)
        have h2 : b.index ≤ hi := hhi.2 _ (List.mem_map.mpr ⟨b, hmem, rfl⟩)
        refine List.mem_filterMap.mpr ⟨b.index, ?_, find?_idx_eq_some hnd hmem⟩
        exact List.mem_range'_1.mpr ⟨h1, by omega⟩

theorem range'_pairwise_lt : ∀ (n s : Nat), (List.range' s n).Pairwise (· < ·) := by
  intro n
  induction n with
  | zero => intro s; exact List.Pairwise.nil
  | succ k ih =>
    intro s
    rw [List.range'_succ]
    exact List.Pairwise.cons
      (fun x hx => (List.mem_range'_1.mp hx).1) (ih (s + 1))

theorem pairwise_filterMap_diag {g : Nat → Option Nat}
    (hg : ∀ i j, g i = some j → j = i) :
    ∀ (l : List Nat), l.Pairwise (· < ·) → (l.filterMap g).Pairwise (· < ·) := by
  intro l
  induction l with
  | nil => intro _; exact List.Pairwise.nil
  | cons a rest ih =>
    intro hp
    rw [List.pairwise_cons] at hp
    rw [List.filterMap_cons]
    cases hga : g a with
    | none => exact ih hp.2
    | some j =>
      have hja : j = a := hg a j hga
      subst hja
      refine List.Pairwise.cons ?_ (ih hp.2)
      intro y hy
      rcases List.mem_filterMap.mp hy with ⟨i, hi, hgi⟩
      exact (hg i y hgi) ▸ hp.1 i hi

theorem emitted_indices_pairwise (m : List SubtitleBlock) :
    ((emittedBlocks m).map SubtitleBlock.index).Pairwise (· < ·) := by
  unfold emittedBlocks
  cases hmin : (m.map SubtitleBlock.index).min? with
  | none => exact List.Pairwise.nil
  | some lo =>
    cases hmax : (m.map SubtitleBlock.index).max? with
    | none => exact List.Pairwise.nil
    | some hi =>
      rw [List.map_filterMap]
      apply pairwise_filterMap_diag
      · intro i j hij
        cases hf : m.find? (fun b => b.index == i) with
        | none => rw [hf] at hij; cases hij
        | some b =>
          rw [hf] at hij
          have : b.index = j := by
            cases hij
            rfl
          rw [← this]
          exact beq_iff_eq.mp (@List.find?_some _ (fun b => b.index == i) b m hf)
      · exact range'_pairwise_lt _ _

theorem emittedBlocks_perm {m₁ m₂ : List SubtitleBlock}
    (hnd : (m₁.map SubtitleBlock.index).Nodup) (hp : m₁.Perm m₂) :
    emittedBlocks m₁ = emittedBlocks m₂ := by
  unfold emittedBlocks
  rw [min?_perm (hp.map SubtitleBlock.index), max?_perm (hp.map SubtitleBlock.index)]
  cases (m₂.map SubtitleBlock.index).min? with
  | none => rfl
  | some lo =>
    cases (m₂.map SubtitleBlock.index).max? with
    | none => rfl
    | some hi =>
      have hfun : (fun i => m₁.find? (fun b => b.index == i))
          = (fun i => m₂.find? (fun b => b.index == i)) :=
        funext (find?_idx_perm hnd hp)
      rw [hfun]

/-! ### Claims C2, C9, C10 -/

/-- C2.  For every set of completed blocks with distinct indices: feeding the
blocks to the reassembly step in any permutation yields an identical output
file and completion status; the emitted indices are strictly ascending; and
the emitted blocks are exactly the completed blocks — every index present in
the dictionary is written and holes between `min` and `max` are silently
skipped (the iteration over `range(min_index, max_index + 1)` filtered by
presence is the definition of `emittedBlocks`). -/
theorem C2_reassembly_order (m₁ m₂ : List SubtitleBlock)
    (hnd : (m₁.map SubtitleBlock.index).Nodup) (hperm : m₁.Perm m₂) :
    writeOutput m₁ = writeOutput m₂ ∧
    ((emittedBlocks m₁).map SubtitleBlock.index).Pairwise (· < ·) ∧
    (∀ b, b ∈ emittedBlocks m₁ ↔ b ∈ m₁) := by
  refine ⟨?_, emitted_indices_pairwise m₁, fun b => mem_emittedBlocks hnd b⟩
  unfold writeOutput
  rw [min?_perm (hperm.map SubtitleBlock.index), emittedBlocks_perm hnd hperm]

/-- C2, witness: two concrete blocks with indices 0 and 2 (so the index
space has a hole at 1), fed in both orders. -/
theorem C2_witness :
    (([bB, bA]).map SubtitleBlock.index).Nodup ∧
    writeOutput [bB, bA] = writeOutput [bA, bB] :=
  ⟨by decide,
    (C2_reassembly_order [bB, bA] [bA, bB] (by decide)
      (List.Perm.swap bA bB [])).1⟩

/-- C9.  A document whose first block has index 0 is parsed into a block
with index 0, translated, and emitted by the reassembler without being
dropped: concretely, the two-block document `doc9` starting at index 0 runs
through parse → translate (stub provider) → reassemble and index 0 heads the
output; in general, for any completed-block set with distinct indices, every
block — in particular one with index 0 — is present in the emitted output,
since the iteration starts at `min(index)`, which includes 0. -/
theorem C9_index_zero :
    (parse_srt (renderDoc doc9)).map SubtitleBlock.index = [0, 1] ∧
    writeOutput ((parse_srt (renderDoc doc9)).map
        (fun b => (translate_block pStub 3 5 b).2))
      = ("0\n00:00:00,000 --> 00:00:01,000\n<T:Hi>\n\n\n" ++
         "1\n00:00:01,000 --> 00:00:02,000\n<T:Yo>\n\n\n", true) ∧
    ∀ (m : List SubtitleBlock), (m.map SubtitleBlock.index).Nodup →
      ∀ b ∈ m, b.index = 0 → b ∈ emittedBlocks m := by
  refine ⟨by decide, by decide, ?_⟩
  intro m hnd b hb _
  exact (mem_emittedBlocks hnd b).mpr hb

/-- C9, witness for the general conjunct at a concrete index-0 block. -/
theorem C9_witness :
    (([bA]).map SubtitleBlock.index).Nodup ∧ bA ∈ emittedBlocks [bA] :=
  ⟨by decide,
    C9_index_zero.2.2 [bA] (by decide) bA (List.mem_singleton.mpr rfl) rfl⟩

/-- C10, counterexample.  The claim says an empty completed-block map makes
the run fail without producing an empty output file.  The run does fail
(`min()` of an empty sequence raises before anything is written), but
`open(output_path, 'w')` has already created and truncated the output file,
so an empty output file is in fact left behind: the file-content component is
`""` while the completion flag is `false`. -/
theorem C10_counterexample : writeOutput [] = ("", false) := rfl

/-- C10, amended.  If parsing yields no blocks, the write step fails
(`ValueError` from `min()` of an empty key set) and writes no block, but the
output file has already been opened with mode `'w'` and is left behind empty;
for every non-empty block set, `min` and `max` are well-defined, the write
loop is total, and the file content is the serialization of the emitted
blocks. -/
theorem C10_empty_input :
    (writeOutput []).2 = false ∧ (writeOutput []).1 = "" ∧
    ∀ (m : List SubtitleBlock), m ≠ [] →
      (writeOutput m).2 = true ∧
      (writeOutput m).1 = String.join ((emittedBlocks m).map SubtitleBlock.toStr) := by
  refine ⟨rfl, rfl, ?_⟩
  intro m hm
  cases m with
  | nil => exact absurd rfl hm
  | cons b rest =>
    constructor <;> rfl

/-- C10, witness for the amended theorem at a one-block map. -/
theorem C10_witness :
    ([bA] : List SubtitleBlock) ≠ [] ∧ (writeOutput [bA]).2 = true :=
  ⟨by decide, (C10_empty_input.2.2 [bA] (by decide)).1⟩

/-! ### Helper lemmas: gap detection -/

theorem calculate_gaps_cons (a b : String × String) (r : List (String × String))
    (t : ℚ) :
    calculate_gaps (a :: b :: r) t
      = match parseTimeMicros a.2, parseTimeMicros b.1 with
        | some e, some ns =>
          match calculate_gaps (b :: r) t with
          | some gs =>
              some (if gapSeconds e ns > t
                    then (a.2, b.1, gapSeconds e ns) :: gs else gs)
          | none => none
        | _, _ => none := rfl

theorem gapsSpec_cons (a b : String × String) (r : List (String × String))
    (t : ℚ) :
    gapsSpec (a :: b :: r) t
      = match parseTimeMicros a.2, parseTimeMicros b.1 with
        | some e, some ns =>
          if gapSeconds e ns > t
          then (a.2, b.1, gapSeconds e ns) :: gapsSpec (b :: r) t
          else gapsSpec (b :: r) t
        | _, _ => gapsSpec (b :: r) t := rfl

theorem calculate_gaps_refines (t : ℚ) :
    ∀ (ts : List (String × String)),
      (∀ pr ∈ adjPairs ts,
        (parseTimeMicros pr.1.2).isSome ∧ (parseTimeMicros pr.2.1).isSome) →
      calculate_gaps ts t = some (gapsSpec ts t) := by
  intro ts
  induction ts with
  | nil => intro _; rfl
  | cons a rest ih =>
    cases rest with
    | nil => intro _; rfl
    | cons b r =>
      intro hp
      have hpair := hp (a, b) (List.mem_cons_self (a, b) (adjPairs (b :: r)))
      rcases Option.isSome_iff_exists.mp hpair.1 with ⟨e, he⟩
      rcases Option.isSome_iff_exists.mp hpair.2 with ⟨ns, hns⟩
      have hih := ih (fun pr hpr => hp pr (List.mem_cons_of_mem _ hpr))
      rw [calculate_gaps_cons, gapsSpec_cons, he, hns, hih]

theorem calculate_gaps_sound (t : ℚ) :
    ∀ (ts : List (String × String)) (gs : List (String × String × ℚ)),
      calculate_gaps ts t = some gs → ∀ g ∈ gs, g.2.2 > t := by
  intro ts
  induction ts with
  | nil =>
    intro gs h g hg
    injection h with h2
    subst h2
    cases hg
  | cons a rest ih =>
    cases rest with
    | nil =>
      intro gs h g hg
      injection h with h2
      subst h2
      cases hg
    | cons b r =>
      intro gs h g hg
      rw [calculate_gaps_cons] at h
      cases hpa : parseTimeMicros a.2 with
      | none => rw [hpa] at h; cases h
      | some e =>
        rw [hpa] at h
        cases hpb : parseTimeMicros b.1 with
        | none => rw [hpb] at h; cases h
        | some ns =>
          rw [hpb] at h
          cases hrec : calculate_gaps (b :: r) t with
          | none => rw [hrec] at h; cases h
          | some gs2 =>
            rw [hrec] at h
            injection h with h2
            subst h2
            by_cases hgt : gapSeconds e ns > t
            · rw [if_pos hgt] at hg
              rcases List.mem_cons.mp hg with rfl | hg2
              · exact hgt
              · exact ih gs2 hrec g hg2
            · rw [if_neg hgt] at hg
              exact ih gs2 hrec g hg

/-! ### Claims C7, C8 -/

/-- C7.  When every adjacent pair's timestamps parse, `calculate_gaps`
returns exactly the specification's gap sequence (a `Gap` record for an
adjacent pair if and only if `nextStart - previousEnd` strictly exceeds the
threshold: that is what `gapsSpec` emits, and by soundness every emitted
record strictly exceeds the threshold, so equal or negative gaps are never
reported).  In particular, the specification's example with threshold 10
reports exactly one gap `("00:00:05,000", "00:00:20,000", 15.0)`. -/
theorem C7_gap_threshold :
    (∀ (ts : List (String × String)) (t : ℚ),
        (∀ pr ∈ adjPairs ts,
          (parseTimeMicros pr.1.2).isSome ∧ (parseTimeMicros pr.2.1).isSome) →
        calculate_gaps ts t = some (gapsSpec ts t)) ∧
    (∀ (ts : List (String × String)) (t : ℚ) (gs : List (String × String × ℚ)),
        calculate_gaps ts t = some gs → ∀ g ∈ gs, g.2.2 > t) ∧
    calculate_gaps gapTs 10 = some [("00:00:05,000", "00:00:20,000", 15)] := by
  refine ⟨fun ts t => calculate_gaps_refines t ts,
    fun ts t => calculate_gaps_sound t ts, ?_⟩
  have hg : gapSeconds 5000000 20000000 = 15 := by
    unfold gapSeconds
    norm_num
  have hgt : gapSeconds 5000000 20000000 > 10 := by rw [hg]; norm_num
  have hstep : calculate_gaps gapTs 10
      = some (if gapSeconds 5000000 20000000 > 10
              then [("00:00:05,000", "00:00:20,000", gapSeconds 5000000 20000000)]
              else []) := rfl
  rw [hstep, if_pos hgt, hg]

/-- C7, witness: the example timestamps satisfy the parse hypothesis and the
refinement applies to them. -/
theorem C7_witness :
    (∀ pr ∈ adjPairs gapTs,
      (parseTimeMicros pr.1.2).isSome ∧ (parseTimeMicros pr.2.1).isSome) ∧
    calculate_gaps gapTs 10 = some (gapsSpec gapTs 10) :=
  ⟨by decide, C7_gap_threshold.1 gapTs 10 (by decide)⟩

/-- C8, counterexample.  `calculate_gaps` has no handler around
`datetime.strptime`: on `badTs`, whose middle entry has the malformed start
`banana`, the whole scan aborts with the raised `ValueError` (modelled as
`none`) and no gap list is produced at all — in particular the 45-second gap
between the two well-formed final entries is not reported, contradicting
"fatal only for that pair" and "gaps for the other well-formed pairs are
still produced".  The same two final entries on their own scan fine. -/
theorem C8_counterexample :
    calculate_gaps badTs 10 = none ∧
    (calculate_gaps (badTs.drop 1) 10).isSome = true :=
  ⟨rfl, rfl⟩

/-- C8, amended.  A malformed timestamp in any adjacent pair aborts the whole
scan: `calculate_gaps` propagates the parse error and produces no gap list at
all, so gaps of the other well-formed pairs are lost rather than still
produced. -/
theorem C8_parse_error_aborts (ts : List (String × String)) (t : ℚ)
    (h : ∃ pr ∈ adjPairs ts,
      parseTimeMicros pr.1.2 = none ∨ parseTimeMicros pr.2.1 = none) :
    calculate_gaps ts t = none := by
  induction ts with
  | nil => rcases h with ⟨pr, hpr, _⟩; cases hpr
  | cons a rest ih =>
    cases rest with
    | nil => rcases h with ⟨pr, hpr, _⟩; cases hpr
    | cons b r =>
      rw [calculate_gaps_cons]
      rcases h with ⟨pr, hpr, hfail⟩
      rcases List.mem_cons.mp hpr with rfl | hpr2
      · rcases hfail with h1 | h1
        · rw [h1]
        · cases hpa : parseTimeMicros (a, b).1.2 <;> rw [h1]
      · have hrec := ih ⟨pr, hpr2, hfail⟩
        rw [hrec]
        cases hpa : parseTimeMicros a.2 <;> cases hpb : parseTimeMicros b.1 <;> rfl

/-- C8, witness for the amended theorem at the malformed fixture. -/
theorem C8_witness :
    (∃ pr ∈ adjPairs badTs,
      parseTimeMicros pr.1.2 = none ∨ parseTimeMicros pr.2.1 = none) ∧
    calculate_gaps badTs 10 = none :=
  ⟨by decide, C8_parse_error_aborts badTs 10 (by decide)⟩

end SrtScripts
